import Mathlib

/-!
Shallow embedding of the diart streaming pipelines in
src/diart/pipelines/voice.py (VoiceActivityDetection) and
src/diart/pipelines/transcription.py (Transcription).

Times, durations and scores are modelled as rationals. External
collaborators (segmentation model, ASR model, DelayedAggregation and
Binarize blocks from the blocks package, which is not part of the given
sources) are modelled as opaque function fields; the pyannote timeline
support operation used by join_predictions is modelled from the spec.
Fallible Python code (assert statements, torch.stack shape errors,
comparisons with None) is embedded with Except.
-/

/-- Rounding to the nearest integer, ties to even: the behaviour of
numpy rint, used for the expected per-chunk sample count. -/
def rint (q : ℚ) : ℤ :=
  let f : ℤ := Int.floor q
  let frac : ℚ := q - (f : ℚ)
  if frac < 1/2 then f
  else if 1/2 < frac then f + 1
  else if f % 2 = 0 then f else f + 1

/-- A pyannote SlidingWindowFeature as far as the pipelines inspect it:
the start of its extent, the duration of its extent, and the number of
samples or frames it carries (the first data dimension). -/
structure SlidingWindowFeature where
  start : ℚ
  extentDuration : ℚ
  numSamples : ℕ
deriving Repr, DecidableEq, Inhabited

/-- A pyannote Segment: a time interval. The field stop plays the role
of the attribute named end in pyannote, which is a keyword in Lean. -/
structure Seg where
  start : ℚ
  stop : ℚ
deriving Repr, DecidableEq, Inhabited

/-- A single-label pyannote Annot ation is modelled as a list of
labelled segments. -/
abbrev Annot := List (Seg × String)

/-- Helper: whether an Except value is an error. -/
def isErr {α : Type} : Except String α → Bool
  | .error _ => true
  | .ok _ => false

/-- The latency constructor argument of VoiceActivityDetectionConfig:
either absent (None), the literal min, the literal max, or a number. -/
inductive LatencyArg
  | noneArg
  | minArg
  | maxArg
  | val (q : ℚ)
deriving Repr, DecidableEq

/-- VoiceActivityDetectionConfig (voice.py lines 19-73): constructor
arguments plus the two values the segmentation model would lazily
provide (its duration and sample rate). -/
structure VoiceActivityDetectionConfig where
  segDuration : ℚ
  segSampleRate : ℚ
  durationArg : Option ℚ
  step : ℚ
  latencyArg : LatencyArg
  tauActive : ℚ
  mergeCollar : ℚ
deriving Repr, DecidableEq

/-- The value of the private latency field after the constructor body
(voice.py lines 41-45): None and min resolve to the step, max resolves
to the duration argument as passed (possibly None), a number stands. -/
def VoiceActivityDetectionConfig.latencyResolved
    (c : VoiceActivityDetectionConfig) : Option ℚ :=
  match c.latencyArg with
  | .noneArg => some c.step
  | .minArg => some c.step
  | .maxArg => c.durationArg
  | .val q => some q

/-- The duration property (voice.py lines 53-58): the duration argument
if given, otherwise the duration of the segmentation model. -/
def VoiceActivityDetectionConfig.duration
    (c : VoiceActivityDetectionConfig) : ℚ :=
  c.durationArg.getD c.segDuration

/-- External blocks wired in VoiceActivityDetection.init (voice.py
lines 110-123): segmentation inference followed by the max over the
speaker dimension, the two DelayedAggregation instances, Binarize
followed by get_timeline, and the num_overlapping_windows value of the
prediction aggregation block. -/
structure VADBlocks where
  segmentation : List SlidingWindowFeature → List SlidingWindowFeature
  audioAgg : List SlidingWindowFeature → SlidingWindowFeature
  predAgg : List SlidingWindowFeature → SlidingWindowFeature
  binarizeTL : SlidingWindowFeature → List Seg
  numOverlappingWindows : ℕ

/-- The configuration values a constructed pipeline reads at call time. -/
structure VADResolvedConfig where
  duration : ℚ
  step : ℚ
  latency : ℚ
  sampleRate : ℚ
  tauActive : ℚ
  mergeCollar : ℚ
deriving Repr, DecidableEq

/-- A VoiceActivityDetection pipeline object: configuration, external
blocks, and the internal state of voice.py lines 125-127. -/
structure VoiceActivityDetectionPipeline where
  config : VADResolvedConfig
  blocks : VADBlocks
  timestampShift : ℚ
  chunkBuffer : List SlidingWindowFeature
  predBuffer : List SlidingWindowFeature

/-- VoiceActivityDetection.init (voice.py lines 104-127): reading the
latency property when the private field is None fails in Python (a
comparison with None); otherwise the latency must lie in the interval
from step to duration, and the fresh pipeline starts with a zero
timestamp shift and empty buffers. -/
def vadInit (c : VoiceActivityDetectionConfig) (bl : VADBlocks) :
    Except String VoiceActivityDetectionPipeline :=
  match c.latencyResolved with
  | none => .error "TypeError: comparison between float and NoneType"
  | some lat =>
    if c.step ≤ lat ∧ lat ≤ c.duration then
      .ok { config := { duration := c.duration, step := c.step, latency := lat,
                        sampleRate := c.segSampleRate, tauActive := c.tauActive,
                        mergeCollar := c.mergeCollar },
            blocks := bl, timestampShift := 0,
            chunkBuffer := [], predBuffer := [] }
    else .error "Latency should be in the range from step to duration"

/-- VoiceActivityDetection.reset (voice.py lines 149-151): zero the
timestamp shift and empty both buffers. -/
def VoiceActivityDetectionPipeline.reset
    (p : VoiceActivityDetectionPipeline) : VoiceActivityDetectionPipeline :=
  { p with timestampShift := 0, chunkBuffer := [], predBuffer := [] }

/-- VoiceActivityDetection.set_timestamp_shift (voice.py lines 153-154). -/
def VoiceActivityDetectionPipeline.setTimestampShift
    (p : VoiceActivityDetectionPipeline) (shift : ℚ) :
    VoiceActivityDetectionPipeline :=
  { p with timestampShift := shift }

/-- The timestamp-shift block of the call loop (voice.py lines 206-215):
when the shift is nonzero, every segment is rebuilt with both endpoints
translated by the shift; when the shift is zero the timeline is left
untouched. -/
def applyShift (shift : ℚ) (tl : List Seg) : List Seg :=
  if shift ≠ 0 then tl.map (fun s => Seg.mk (s.start + shift) (s.stop + shift))
  else tl

/-- Re-tagging of a prediction with a sliding window that starts at the
start of the originating chunk (voice.py lines 190-195). -/
def tagPred (wav vad : SlidingWindowFeature) : SlidingWindowFeature :=
  { vad with start := wav.start }

/-- One iteration of the loop in VoiceActivityDetection.call (voice.py
lines 188-224): append the chunk and its prediction to the buffers,
aggregate both buffers, binarize, shift, label every segment with the
speech label, then evict the oldest buffer entry when the buffer length
reached num_overlapping_windows. -/
def vadStep (p : VoiceActivityDetectionPipeline)
    (wav vad : SlidingWindowFeature) :
    VoiceActivityDetectionPipeline × (Annot × SlidingWindowFeature) :=
  let vadT := tagPred wav vad
  let cb := p.chunkBuffer ++ [wav]
  let pb := p.predBuffer ++ [vadT]
  let aggWaveform := p.blocks.audioAgg cb
  let aggTimeline := p.blocks.binarizeTL (p.blocks.predAgg pb)
  let shifted := applyShift p.timestampShift aggTimeline
  let annot : Annot := shifted.map (fun s => (s, "speech"))
  let evict := cb.length = p.blocks.numOverlappingWindows
  let cb2 := if evict then cb.drop 1 else cb
  let pb2 := if evict then pb.drop 1 else pb
  ({ p with chunkBuffer := cb2, predBuffer := pb2 }, (annot, aggWaveform))

/-- The whole loop of VoiceActivityDetection.call over the zipped
chunks and voice detections, threading the pipeline state and
collecting one output per chunk. -/
def runChunks (p : VoiceActivityDetectionPipeline) :
    List (SlidingWindowFeature × SlidingWindowFeature) →
    VoiceActivityDetectionPipeline × List (Annot × SlidingWindowFeature)
  | [] => (p, [])
  | x :: rest =>
    let st := vadStep p x.1 x.2
    let r := runChunks st.1 rest
    (r.1, st.2 :: r.2)

/-- VoiceActivityDetection.call (voice.py lines 166-226): a batch must
be nonempty, torch.stack requires every chunk to carry the same number
of samples, and that number must equal the rounded product of duration
and sample rate; then the batch is segmented and each chunk is pushed
through the loop. -/
def vadCall (p : VoiceActivityDetectionPipeline)
    (ws : List SlidingWindowFeature) :
    Except String
      (VoiceActivityDetectionPipeline × List (Annot × SlidingWindowFeature)) :=
  if ws.length < 1 then .error "Pipeline expected at least 1 input"
  else if ¬ (ws.all (fun w => w.numSamples = (ws.headD default).numSamples)) then
    .error "stack expects each tensor to be equal size"
  else if ((ws.headD default).numSamples : ℤ) ≠
      rint (p.config.duration * p.config.sampleRate) then
    .error "Unexpected number of samples per chunk"
  else
    .ok (runChunks p (ws.zip (p.blocks.segmentation ws)))

/-- Insertion of a segment into a list of segments sorted by start then
stop, modelling the sorted segment storage of a pyannote timeline. -/
def insertSeg (s : Seg) : List Seg → List Seg
  | [] => [s]
  | t :: rest =>
    if s.start < t.start ∨ (s.start = t.start ∧ s.stop ≤ t.stop) then
      s :: t :: rest
    else t :: insertSeg s rest

/-- Sorting a list of segments by start then stop. -/
def sortSegs (l : List Seg) : List Seg := l.foldr insertSeg []

/-- Merging pass over sorted segments: the current segment absorbs the
next one when the gap between them is strictly below the collar or not
a positive gap at all (overlap or contact), extending its stop. -/
def supportGo (collar : ℚ) (cur : Seg) : List Seg → List Seg
  | [] => [cur]
  | s :: rest =>
    if s.start - cur.stop < collar ∨ s.start ≤ cur.stop then
      supportGo collar (Seg.mk cur.start (max cur.stop s.stop)) rest
    else cur :: supportGo collar s rest

/-- Modelled from the spec: the pyannote timeline support operation
(the support method called by join_predictions is outside the given
sources): the union of the segments with every gap strictly below the
collar merged into a single interval, overlapping or touching segments
always merged. -/
def timelineSupport (collar : ℚ) (l : List Seg) : List Seg :=
  match sortSegs l with
  | [] => []
  | s :: rest => supportGo collar s rest

/-- VoiceActivityDetection.join_predictions (voice.py lines 156-160):
accumulate the union of all per-chunk timelines, then take the support
with the configured merge collar. -/
def VoiceActivityDetectionPipeline.join_predictions
    (p : VoiceActivityDetectionPipeline) (preds : List (List Seg)) :
    List Seg :=
  timelineSupport p.config.mergeCollar (preds.foldl (fun acc q => acc ++ q) [])

/-- A Transcription pipeline object (transcription.py lines 99-105):
resolved configuration values, the optional voice-activity pre-filter
(segmentation scores per chunk, already collapsed over speakers by the
max) and the ASR block, which transcribes a batch of chunks. -/
structure TranscriptionPipeline where
  duration : ℚ
  sampleRate : ℚ
  tauActive : ℚ
  segBlock : Option (List SlidingWindowFeature → List (List ℚ))
  asrBlock : List SlidingWindowFeature → List String

/-- Transcription.reset (transcription.py lines 127-129): no internal
state, nothing to do. -/
def TranscriptionPipeline.reset (t : TranscriptionPipeline) :
    TranscriptionPipeline := t

/-- The voiced-index computation of Transcription.call (transcription.py
lines 157-164): without a pre-filter every index counts as voiced;
with one, the indices whose chunk has some frame score at least
tau_active, in increasing order. -/
def hasVoiceIdx (t : TranscriptionPipeline)
    (ws : List SlidingWindowFeature) : List ℕ :=
  match t.segBlock with
  | none => List.range ws.length
  | some f =>
    let scores := f ws
    (List.range ws.length).filter
      (fun i => (scores.getD i []).any (fun s => decide (t.tauActive ≤ s)))

/-- The position a voiced index maps to in the compacted ASR batch
(transcription.py line 172, the mapping dictionary built by enumerate). -/
def idxIn (i : ℕ) : List ℕ → ℕ
  | [] => 0
  | a :: rest => if a = i then 0 else idxIn i rest + 1

/-- Transcription.call (transcription.py lines 142-178): validate the
batch as in the other pipeline, compute the voiced indices, return
empty strings for every chunk when none is voiced, otherwise run ASR
on the voiced chunks only and re-splice its outputs into the original
batch order, with empty strings at the voiceless indices. -/
def transCall (t : TranscriptionPipeline)
    (ws : List SlidingWindowFeature) :
    Except String (List (String × SlidingWindowFeature)) :=
  if ws.length < 1 then .error "Pipeline expected at least 1 input"
  else if ¬ (ws.all (fun w => w.numSamples = (ws.headD default).numSamples)) then
    .error "stack expects each tensor to be equal size"
  else if ((ws.headD default).numSamples : ℤ) ≠
      rint (t.duration * t.sampleRate) then
    .error "Unexpected number of samples per chunk"
  else if (hasVoiceIdx t ws).length = 0 then
    .ok (ws.map (fun w => ("", w)))
  else
    .ok ((List.range ws.length).map (fun i =>
      (if i ∈ hasVoiceIdx t ws then
        (t.asrBlock ((hasVoiceIdx t ws).map (fun j => ws.getD j default))).getD
          (idxIn i (hasVoiceIdx t ws)) ""
       else "", ws.getD i default)))

/-! Concrete instances used to evaluate the definitions. -/

/-- A concrete set of external blocks with two overlapping windows. -/
def exBlocks : VADBlocks where
  segmentation := fun ws => ws
  audioAgg := fun l => l.headD default
  predAgg := fun l => l.headD default
  binarizeTL := fun _ => [Seg.mk 0 (1/2)]
  numOverlappingWindows := 2

/-- A concrete resolved configuration: one-second chunks at 4 samples
per second, half-second step, one-second latency. -/
def exConfig : VADResolvedConfig where
  duration := 1
  step := 1/2
  latency := 1
  sampleRate := 4
  tauActive := 1/2
  mergeCollar := 1/20

/-- A concrete fresh VoiceActivityDetection pipeline. -/
def exPipeline : VoiceActivityDetectionPipeline where
  config := exConfig
  blocks := exBlocks
  timestampShift := 0
  chunkBuffer := []
  predBuffer := []

/-- A concrete chunk with the expected four samples. -/
def exChunk (s : ℚ) : SlidingWindowFeature where
  start := s
  extentDuration := 1
  numSamples := 4

/-- A concrete Transcription pipeline whose pre-filter reports a voiced
chunk exactly when some frame score reaches one half, and whose ASR
names the start time of each chunk. -/
def exTrans : TranscriptionPipeline where
  duration := 1
  sampleRate := 4
  tauActive := 1/2
  segBlock := some (fun ws => ws.map (fun w => [w.start]))
  asrBlock := fun chunks => chunks.map (fun c => toString c.numSamples ++ "samples")


/-- A config with latency max and no duration argument. -/
def exConfigMax : VoiceActivityDetectionConfig where
  segDuration := 5
  segSampleRate := 16000
  durationArg := none
  step := 1/2
  latencyArg := .maxArg
  tauActive := 1/2
  mergeCollar := 1/20

/-- A config with latency max and an explicit duration argument. -/
def exConfigMaxD : VoiceActivityDetectionConfig :=
  { exConfigMax with durationArg := some 2 }

/-- A config whose numeric latency lies above the duration. -/
def exConfigBadLat : VoiceActivityDetectionConfig :=
  { exConfigMax with durationArg := some 1, latencyArg := .val 2 }

/-- A chunk carrying three samples where four are expected. -/
def exBadChunk : SlidingWindowFeature where
  start := 0
  extentDuration := 1
  numSamples := 3

/-- Claim C5: the timestamp shift applied by the call loop is additive
and order-preserving: applying shift s and then shift 0 equals applying
shift s once, and the shifted timeline is exactly the positionwise image
of the original, each segment translated by s at both endpoints. -/
theorem C5_shift_additive_order_preserving (s : ℚ) (tl : List Seg) :
    applyShift 0 (applyShift s tl) = applyShift s tl ∧
    applyShift s tl =
      tl.map (fun seg => Seg.mk (seg.start + s) (seg.stop + s)) := by
  constructor
  · simp [applyShift]
  · by_cases h : s = 0
    · subst h
      have h0 : applyShift 0 tl = tl := by simp [applyShift]
      have hf : (fun seg : Seg => Seg.mk (seg.start + 0) (seg.stop + 0)) = id := by
        funext seg
        show Seg.mk (seg.start + 0) (seg.stop + 0) = seg
        rw [add_zero, add_zero]
      rw [h0, hf, List.map_id]
    · simp [applyShift, h]

/-- Claim C7: reset returns a VoiceActivityDetection pipeline to the
fresh state, emptying both buffers and zeroing the timestamp shift
while leaving the configuration and the block components unchanged;
Transcription reset changes nothing at all. -/
theorem C7_reset_to_fresh (p : VoiceActivityDetectionPipeline)
    (t : TranscriptionPipeline) :
    p.reset.chunkBuffer = [] ∧ p.reset.predBuffer = [] ∧
    p.reset.timestampShift = 0 ∧ p.reset.config = p.config ∧
    p.reset.blocks = p.blocks ∧ t.reset = t :=
  ⟨rfl, rfl, rfl, rfl, rfl, rfl⟩

/-- Claim C10: with the latency argument max, the resolved latency is
the duration argument exactly as passed to the constructor, whatever
the model would later report as its duration; with the duration
argument absent the resolved latency is None and constructing the
pipeline from such a config fails. -/
theorem C10_latency_max_uses_duration_arg
    (c : VoiceActivityDetectionConfig) (bl : VADBlocks) (d : ℚ) :
    (c.latencyArg = .maxArg → c.durationArg = some d →
      c.latencyResolved = some d) ∧
    (c.latencyArg = .maxArg → c.durationArg = none →
      c.latencyResolved = none ∧ isErr (vadInit c bl) = true) := by
  constructor
  · intro h1 h2
    simp [VoiceActivityDetectionConfig.latencyResolved, h1, h2]
  · intro h1 h2
    have hl : c.latencyResolved = none := by
      simp [VoiceActivityDetectionConfig.latencyResolved, h1, h2]
    refine ⟨hl, ?_⟩
    unfold vadInit
    rw [hl]
    rfl

/-- Witness for claim C10 at two concrete configurations. -/
theorem C10_witness :
    exConfigMaxD.latencyResolved = some 2 ∧
    (exConfigMax.latencyResolved = none ∧
      isErr (vadInit exConfigMax exBlocks) = true) :=
  ⟨(C10_latency_max_uses_duration_arg exConfigMaxD exBlocks 2).1 rfl rfl,
   (C10_latency_max_uses_duration_arg exConfigMax exBlocks 0).2 rfl rfl⟩

/-- Claim C3: an empty batch makes either call fail, a batch holding a
chunk whose sample count differs from the rounded product of duration
and sample rate makes either call fail with no partial output, and a
resolved latency outside the interval from step to duration makes
pipeline construction fail. -/
theorem C3_precondition_violations
    (p : VoiceActivityDetectionPipeline) (t : TranscriptionPipeline)
    (c : VoiceActivityDetectionConfig) (bl : VADBlocks)
    (ws ws2 : List SlidingWindowFeature) (w w2 : SlidingWindowFeature)
    (lat : ℚ) :
    isErr (vadCall p []) = true ∧
    isErr (transCall t []) = true ∧
    (w ∈ ws → (w.numSamples : ℤ) ≠
        rint (p.config.duration * p.config.sampleRate) →
      isErr (vadCall p ws) = true) ∧
    (w2 ∈ ws2 → (w2.numSamples : ℤ) ≠ rint (t.duration * t.sampleRate) →
      isErr (transCall t ws2) = true) ∧
    (c.latencyResolved = some lat → (lat < c.step ∨ c.duration < lat) →
      isErr (vadInit c bl) = true) := by
  refine ⟨rfl, rfl, ?_, ?_, ?_⟩
  · intro hw hne
    unfold vadCall
    split_ifs with h1 h2 h3
    any_goals rfl
    exfalso
    apply hne
    have heq : w.numSamples = (ws.headD default).numSamples :=
      of_decide_eq_true (List.all_eq_true.mp h2 w hw)
    rw [heq]
    exact not_not.mp h3
  · intro hw hne
    unfold transCall
    split_ifs with h1 h2 h3 h4
    any_goals rfl
    all_goals
      exact absurd (by
        rw [show w2.numSamples = (ws2.headD default).numSamples from
          of_decide_eq_true (List.all_eq_true.mp h2 w2 hw)]
        exact not_not.mp h3) hne
  · intro hres hout
    have hno : ¬ (c.step ≤ lat ∧ lat ≤ c.duration) := by
      rcases hout with h | h
      · rintro ⟨ha, _⟩; linarith
      · rintro ⟨_, hb⟩; linarith
    unfold vadInit
    simp only [hres]
    rw [if_neg hno]
    rfl

/-- Witness for claim C3 at concrete inputs. -/
theorem C3_witness :
    isErr (vadCall exPipeline []) = true ∧
    isErr (transCall exTrans []) = true ∧
    isErr (vadCall exPipeline [exBadChunk]) = true ∧
    isErr (transCall exTrans [exBadChunk]) = true ∧
    isErr (vadInit exConfigBadLat exBlocks) = true := by
  have h := C3_precondition_violations exPipeline exTrans exConfigBadLat
    exBlocks [exBadChunk] [exBadChunk] exBadChunk exBadChunk 2
  refine ⟨h.1, h.2.1, h.2.2.1 (by simp) ?_, h.2.2.2.1 (by simp) ?_,
    h.2.2.2.2 rfl ?_⟩
  · norm_num [rint, exPipeline, exConfig, exBadChunk]
  · norm_num [rint, exTrans, exBadChunk]
  · norm_num [exConfigBadLat, exConfigMax,
      VoiceActivityDetectionConfig.duration]

/-- Looking up a mapped list at the position idxIn returns the image of
the sought element. -/
theorem getD_map_idxIn {α : Type} (f : ℕ → α) (d : α) :
    ∀ (l : List ℕ) (i : ℕ), i ∈ l → (l.map f).getD (idxIn i l) d = f i := by
  intro l
  induction l with
  | nil => intro i hi; cases hi
  | cons a rest ih =>
    intro i hi
    by_cases h : a = i
    · subst h
      simp [idxIn]
    · have hi2 : i ∈ rest := by
        rcases List.mem_cons.mp hi with h1 | h1
        · exact absurd h1.symm h
        · exact h1
      have hidx : idxIn i (a :: rest) = idxIn i rest + 1 := by
        simp [idxIn, h]
      rw [List.map_cons, hidx, List.getD_cons_succ]
      exact ih i hi2

/-- Looking up the image of a range at a position below the bound. -/
theorem getD_map_range {α : Type} (g : ℕ → α) (d : α) (n i : ℕ)
    (h : i < n) : ((List.range n).map g).getD i d = g i := by
  rw [List.getD_eq_getElem?_getD, List.getElem?_map, List.getElem?_range h]
  rfl

/-- Claim C6: a valid batch in which the pre-filter detects no voice in
any chunk succeeds and returns one pair of empty string and original
chunk per input chunk, in input order. -/
theorem C6_no_voice_is_success (t : TranscriptionPipeline)
    (ws : List SlidingWindowFeature)
    (h1 : 1 ≤ ws.length)
    (h2 : ws.all (fun w => w.numSamples = (ws.headD default).numSamples)
      = true)
    (h3 : ((ws.headD default).numSamples : ℤ) =
      rint (t.duration * t.sampleRate))
    (h0 : hasVoiceIdx t ws = []) :
    transCall t ws = .ok (ws.map (fun w => ("", w))) := by
  unfold transCall
  rw [if_neg (by omega), if_neg (by simpa using h2),
    if_neg (by simpa using h3), if_pos (by simp [h0])]

/-- Witness for claim C6: a batch of size one with no voice anywhere. -/
theorem C6_witness :
    transCall exTrans [exChunk 0] = .ok [("", exChunk 0)] := by
  have h0 : hasVoiceIdx exTrans [exChunk 0] = [] := by
    simp [hasVoiceIdx, exTrans, exChunk]
  exact C6_no_voice_is_success exTrans [exChunk 0] (by simp)
    (by simp [exChunk]) (by norm_num [rint, exTrans, exChunk]) h0

/-- Claim C2: with a pre-filter configured and the ASR block meeting its
contract of one text per chunk in order, a successful call returns one
output per input chunk in the original order, the empty string exactly
at the voiceless indices and the per-chunk ASR text at the voiced ones. -/
theorem C2_selective_compute_alignment (t : TranscriptionPipeline)
    (ws : List SlidingWindowFeature)
    (asrOne : SlidingWindowFeature → String)
    (res : List (String × SlidingWindowFeature))
    (_hseg : t.segBlock.isSome = true)
    (hasr : ∀ chunks, t.asrBlock chunks = chunks.map asrOne)
    (hok : transCall t ws = .ok res) :
    res.length = ws.length ∧
    ∀ i, i < ws.length →
      res.getD i ("", default) =
        (if i ∈ hasVoiceIdx t ws then asrOne (ws.getD i default) else "",
         ws.getD i default) := by
  unfold transCall at hok
  split_ifs at hok with h1 h2 h3 h4
  · have hres : res = ws.map (fun w => ("", w)) := (Except.ok.inj hok).symm
    subst hres
    have hvnil : hasVoiceIdx t ws = [] := List.length_eq_zero.mp h4
    refine ⟨by simp, ?_⟩
    intro i hi
    rw [hvnil]
    simp only [List.not_mem_nil, if_false]
    rw [List.getD_eq_getElem?_getD, List.getElem?_map,
      List.getElem?_eq_getElem hi]
    rw [List.getD_eq_getElem?_getD, List.getElem?_eq_getElem hi]
    rfl
  · have hres : res = (List.range ws.length).map (fun i =>
      (if i ∈ hasVoiceIdx t ws then
        (t.asrBlock ((hasVoiceIdx t ws).map (fun j => ws.getD j default))).getD
          (idxIn i (hasVoiceIdx t ws)) ""
       else "", ws.getD i default)) := (Except.ok.inj hok).symm
    subst hres
    refine ⟨by simp, ?_⟩
    intro i hi
    rw [getD_map_range _ _ _ _ hi]
    by_cases hmem : i ∈ hasVoiceIdx t ws
    · simp only [hmem, if_true]
      rw [hasr, List.map_map]
      rw [getD_map_idxIn _ _ _ _ hmem]
      rfl
    · simp [hmem]

/-- The batch of the selective-compute example: four chunks with voice
in the second and the fourth. -/
def exBatch4 : List SlidingWindowFeature :=
  [exChunk 0, exChunk 1, exChunk 0, exChunk 1]

/-- The expected output of the selective-compute example. -/
def exRes4 : List (String × SlidingWindowFeature) :=
  [("", exChunk 0), ("4samples", exChunk 1),
   ("", exChunk 0), ("4samples", exChunk 1)]

/-- The voiced indices of the example batch are the second and fourth. -/
theorem exBatch4_hasVoice : hasVoiceIdx exTrans exBatch4 = [1, 3] := by
  have hr : List.range exBatch4.length = [0, 1, 2, 3] := by rfl
  norm_num [hasVoiceIdx, exTrans, exBatch4, exChunk, hr, List.filter]

/-- The example call evaluates to the expected output. -/
theorem exBatch4_call : transCall exTrans exBatch4 = .ok exRes4 := by
  have hrint : rint (exTrans.duration * exTrans.sampleRate) = 4 := by
    norm_num [rint, exTrans]
  have hr : List.range exBatch4.length = [0, 1, 2, 3] := by rfl
  unfold transCall
  rw [if_neg (by simp [exBatch4]), if_neg (by simp [exBatch4, exChunk]),
    if_neg (by simp [exBatch4, exChunk, hrint]),
    if_neg (by simp [exBatch4_hasVoice])]
  rw [exBatch4_hasVoice, hr]
  norm_num [exBatch4, exChunk, exRes4, idxIn, exTrans, exBatch4_hasVoice]
  rfl

/-- Witness for claim C2 at the four-chunk example with voice in chunks
one and three. -/
theorem C2_witness :
    exRes4.length = exBatch4.length ∧
    ∀ i, i < exBatch4.length →
      exRes4.getD i ("", default) =
        (if i ∈ hasVoiceIdx exTrans exBatch4 then
           (fun c : SlidingWindowFeature =>
             toString c.numSamples ++ "samples") (exBatch4.getD i default)
         else "", exBatch4.getD i default) :=
  C2_selective_compute_alignment exTrans exBatch4 _ exRes4 rfl
    (fun _ => rfl) exBatch4_call

/-- vadStep leaves the external blocks unchanged. -/
theorem vadStep_blocks (p : VoiceActivityDetectionPipeline)
    (wav vad : SlidingWindowFeature) :
    (vadStep p wav vad).1.blocks = p.blocks := rfl

/-- vadStep leaves the configuration unchanged. -/
theorem vadStep_config (p : VoiceActivityDetectionPipeline)
    (wav vad : SlidingWindowFeature) :
    (vadStep p wav vad).1.config = p.config := rfl

/-- The chunk buffer after one step: append, then evict the head when
the length reached num_overlapping_windows. -/
theorem vadStep_chunkBuffer (p : VoiceActivityDetectionPipeline)
    (wav vad : SlidingWindowFeature) :
    (vadStep p wav vad).1.chunkBuffer =
      if (p.chunkBuffer ++ [wav]).length = p.blocks.numOverlappingWindows
      then (p.chunkBuffer ++ [wav]).drop 1 else p.chunkBuffer ++ [wav] := rfl

/-- The prediction buffer after one step: append the re-tagged
prediction, then evict the head when the chunk-buffer length reached
num_overlapping_windows. -/
theorem vadStep_predBuffer (p : VoiceActivityDetectionPipeline)
    (wav vad : SlidingWindowFeature) :
    (vadStep p wav vad).1.predBuffer =
      if (p.chunkBuffer ++ [wav]).length = p.blocks.numOverlappingWindows
      then (p.predBuffer ++ [tagPred wav vad]).drop 1
      else p.predBuffer ++ [tagPred wav vad] := rfl

/-- Evolution of the internal state along the call loop: starting from
buffers of equal length at most one below num_overlapping_windows, the
buffers after the loop are the suffix of the appended stream whose
length is capped at one below num_overlapping_windows. -/
theorem runChunks_state (N : ℕ) (hN : 1 ≤ N) :
    ∀ (xs : List (SlidingWindowFeature × SlidingWindowFeature))
      (p : VoiceActivityDetectionPipeline),
      p.blocks.numOverlappingWindows = N →
      p.chunkBuffer.length ≤ N - 1 →
      p.predBuffer.length = p.chunkBuffer.length →
      (runChunks p xs).1.blocks = p.blocks ∧
      (runChunks p xs).1.chunkBuffer =
        (p.chunkBuffer ++ xs.map Prod.fst).drop
          (p.chunkBuffer.length + xs.length - (N - 1)) ∧
      (runChunks p xs).1.predBuffer =
        (p.predBuffer ++ xs.map (fun x => tagPred x.1 x.2)).drop
          (p.chunkBuffer.length + xs.length - (N - 1)) := by
  intro xs
  induction xs with
  | nil =>
    intro p hbl hlen heq
    have hidx : p.chunkBuffer.length +
        ([] : List (SlidingWindowFeature × SlidingWindowFeature)).length -
        (N - 1) = 0 := by
      simp only [List.length_nil]
      omega
    refine ⟨rfl, ?_, ?_⟩
    · rw [List.map_nil, List.append_nil, hidx, List.drop_zero]
      rfl
    · rw [List.map_nil, List.append_nil, hidx, List.drop_zero]
      rfl
  | cons x rest ih =>
    intro p hbl hlen heq
    have hrc : (runChunks p (x :: rest)).1 =
        (runChunks (vadStep p x.1 x.2).1 rest).1 := rfl
    have hqb : (vadStep p x.1 x.2).1.blocks = p.blocks := rfl
    by_cases hcase :
        (p.chunkBuffer ++ [x.1]).length = p.blocks.numOverlappingWindows
    · have hcb : (vadStep p x.1 x.2).1.chunkBuffer =
          (p.chunkBuffer ++ [x.1]).drop 1 := by
        rw [vadStep_chunkBuffer, if_pos hcase]
      have hpb : (vadStep p x.1 x.2).1.predBuffer =
          (p.predBuffer ++ [tagPred x.1 x.2]).drop 1 := by
        rw [vadStep_predBuffer, if_pos hcase]
      have hlen2 : p.chunkBuffer.length = N - 1 := by
        rw [List.length_append, List.length_singleton, hbl] at hcase
        omega
      obtain ⟨ihb, ihc, ihp⟩ := ih (vadStep p x.1 x.2).1
        (by rw [hqb]; exact hbl)
        (by rw [hcb]; simp only [List.length_drop, List.length_append,
            List.length_singleton, List.length_nil, List.length_cons]; omega)
        (by rw [hcb, hpb]; simp only [List.length_drop, List.length_append,
            List.length_singleton, heq])
      refine ⟨by rw [hrc, ihb, hqb], ?_, ?_⟩
      · rw [hrc, ihc, hcb]
        rw [show ((p.chunkBuffer ++ [x.1]).drop 1) ++ rest.map Prod.fst =
            ((p.chunkBuffer ++ [x.1]) ++ rest.map Prod.fst).drop 1 from
          (List.drop_append_of_le_length (by simp)).symm]
        rw [List.drop_drop, List.append_assoc, List.singleton_append]
        simp only [List.map_cons]
        congr 1
        simp only [List.length_drop, List.length_append,
          List.length_singleton, List.length_cons, List.length_map,
          List.length_nil]
        omega
      · rw [hrc, ihp, hpb, hcb]
        rw [show ((p.predBuffer ++ [tagPred x.1 x.2]).drop 1) ++
              rest.map (fun y => tagPred y.1 y.2) =
            ((p.predBuffer ++ [tagPred x.1 x.2]) ++
              rest.map (fun y => tagPred y.1 y.2)).drop 1 from
          (List.drop_append_of_le_length (by simp)).symm]
        rw [List.drop_drop, List.append_assoc, List.singleton_append]
        simp only [List.map_cons]
        congr 1
        simp only [List.length_drop, List.length_append,
          List.length_singleton, List.length_cons, List.length_map,
          List.length_nil]
        omega
    · have hcb : (vadStep p x.1 x.2).1.chunkBuffer =
          p.chunkBuffer ++ [x.1] := by
        rw [vadStep_chunkBuffer, if_neg hcase]
      have hpb : (vadStep p x.1 x.2).1.predBuffer =
          p.predBuffer ++ [tagPred x.1 x.2] := by
        rw [vadStep_predBuffer, if_neg hcase]
      have hlt : p.chunkBuffer.length + 1 ≤ N - 1 := by
        rw [List.length_append, List.length_singleton, hbl] at hcase
        omega
      obtain ⟨ihb, ihc, ihp⟩ := ih (vadStep p x.1 x.2).1
        (by rw [hqb]; exact hbl)
        (by rw [hcb]; simp only [List.length_append, List.length_singleton,
            List.length_nil, List.length_cons]
            omega)
        (by rw [hcb, hpb]; simp only [List.length_append,
            List.length_singleton, heq])
      refine ⟨by rw [hrc, ihb, hqb], ?_, ?_⟩
      · rw [hrc, ihc, hcb, List.append_assoc, List.singleton_append]
        simp only [List.map_cons]
        congr 1
        simp only [List.length_append, List.length_singleton,
          List.length_cons, List.length_map, List.length_nil]
        omega
      · rw [hrc, ihp, hpb, hcb, List.append_assoc, List.singleton_append]
        simp only [List.map_cons]
        congr 1
        simp only [List.length_append, List.length_singleton,
          List.length_cons, List.length_map, List.length_nil]
        omega

/-- One loop iteration preserves equality of the two buffer lengths. -/
theorem vadStep_len_eq (p : VoiceActivityDetectionPipeline)
    (wav vad : SlidingWindowFeature)
    (h : p.chunkBuffer.length = p.predBuffer.length) :
    (vadStep p wav vad).1.chunkBuffer.length =
      (vadStep p wav vad).1.predBuffer.length := by
  rw [vadStep_chunkBuffer, vadStep_predBuffer]
  by_cases hc :
      (p.chunkBuffer ++ [wav]).length = p.blocks.numOverlappingWindows
  · rw [if_pos hc, if_pos hc]
    simp [h]
  · rw [if_neg hc, if_neg hc]
    simp [h]

/-- The whole loop preserves equality of the two buffer lengths. -/
theorem runChunks_len_eq :
    ∀ (xs : List (SlidingWindowFeature × SlidingWindowFeature))
      (p : VoiceActivityDetectionPipeline),
      p.chunkBuffer.length = p.predBuffer.length →
      (runChunks p xs).1.chunkBuffer.length =
        (runChunks p xs).1.predBuffer.length := by
  intro xs
  induction xs with
  | nil => intro p h; exact h
  | cons x rest ih =>
    intro p h
    exact ih (vadStep p x.1 x.2).1 (vadStep_len_eq p x.1 x.2 h)

/-- The loop emits exactly one output per processed chunk. -/
theorem runChunks_outputs_length :
    ∀ (xs : List (SlidingWindowFeature × SlidingWindowFeature))
      (p : VoiceActivityDetectionPipeline),
      (runChunks p xs).2.length = xs.length := by
  intro xs
  induction xs with
  | nil => intro p; rfl
  | cons x rest ih =>
    intro p
    have : (runChunks p (x :: rest)).2 =
        (vadStep p x.1 x.2).2 :: (runChunks (vadStep p x.1 x.2).1 rest).2 :=
      rfl
    rw [this, List.length_cons, ih]
    rfl

/-- Every label in every output of the loop is the speech label. -/
theorem runChunks_outputs_speech :
    ∀ (xs : List (SlidingWindowFeature × SlidingWindowFeature))
      (p : VoiceActivityDetectionPipeline),
      ∀ out ∈ (runChunks p xs).2, ∀ pr ∈ out.1, pr.2 = "speech" := by
  intro xs
  induction xs with
  | nil => intro p out hout; cases hout
  | cons x rest ih =>
    intro p out hout
    have hrc : (runChunks p (x :: rest)).2 =
        (vadStep p x.1 x.2).2 :: (runChunks (vadStep p x.1 x.2).1 rest).2 :=
      rfl
    rw [hrc] at hout
    rcases List.mem_cons.mp hout with h | h
    · intro pr hpr
      have hann : (vadStep p x.1 x.2).2.1 =
          (applyShift p.timestampShift (p.blocks.binarizeTL
            (p.blocks.predAgg (p.predBuffer ++ [tagPred x.1 x.2])))).map
            (fun s => (s, "speech")) := rfl
      rw [h, hann] at hpr
      rcases List.mem_map.mp hpr with ⟨s, _, hs⟩
      rw [← hs]
    · exact ih (vadStep p x.1 x.2).1 out h

/-- A successfully constructed pipeline starts with empty buffers. -/
theorem vadInit_ok_buffers (c : VoiceActivityDetectionConfig)
    (bl : VADBlocks) (q : VoiceActivityDetectionPipeline)
    (h : vadInit c bl = .ok q) :
    q.chunkBuffer = [] ∧ q.predBuffer = [] := by
  unfold vadInit at h
  cases hres : c.latencyResolved with
  | none =>
    simp only [hres] at h
    exact Except.noConfusion h
  | some lat =>
    simp only [hres] at h
    split_ifs at h
    have := Except.ok.inj h
    rw [← this]
    exact ⟨rfl, rfl⟩

/-- Claim C9: chunk buffer and prediction buffer always have equal
length: at construction, after reset, across one loop iteration and
across a whole successful call. -/
theorem C9_buffers_equal_length (c : VoiceActivityDetectionConfig)
    (bl : VADBlocks) (p q : VoiceActivityDetectionPipeline)
    (wav vad : SlidingWindowFeature) (ws : List SlidingWindowFeature)
    (r : VoiceActivityDetectionPipeline ×
      List (Annot × SlidingWindowFeature)) :
    (vadInit c bl = .ok q →
      q.chunkBuffer.length = q.predBuffer.length) ∧
    p.reset.chunkBuffer.length = p.reset.predBuffer.length ∧
    (p.chunkBuffer.length = p.predBuffer.length →
      (vadStep p wav vad).1.chunkBuffer.length =
        (vadStep p wav vad).1.predBuffer.length) ∧
    (p.chunkBuffer.length = p.predBuffer.length → vadCall p ws = .ok r →
      r.1.chunkBuffer.length = r.1.predBuffer.length) := by
  refine ⟨?_, rfl, vadStep_len_eq p wav vad, ?_⟩
  · intro h
    obtain ⟨h1, h2⟩ := vadInit_ok_buffers c bl q h
    rw [h1, h2]
  · intro hlen hok
    unfold vadCall at hok
    split_ifs at hok
    have hr : r = runChunks p (ws.zip (p.blocks.segmentation ws)) :=
      (Except.ok.inj hok).symm
    rw [hr]
    exact runChunks_len_eq _ p hlen

/-- The pipeline constructed from the max-latency config with duration
argument two. -/
def exInitPipeline : VoiceActivityDetectionPipeline where
  config := { duration := 2, step := 1/2, latency := 2, sampleRate := 16000,
              tauActive := 1/2, mergeCollar := 1/20 }
  blocks := exBlocks
  timestampShift := 0
  chunkBuffer := []
  predBuffer := []

/-- Construction from the concrete config succeeds with the expected
fresh pipeline. -/
theorem exInit_eval : vadInit exConfigMaxD exBlocks = .ok exInitPipeline := by
  unfold vadInit
  simp only [show exConfigMaxD.latencyResolved = some 2 from rfl]
  rw [if_pos ⟨by norm_num [exConfigMaxD, exConfigMax],
    by norm_num [exConfigMaxD, exConfigMax,
      VoiceActivityDetectionConfig.duration]⟩]
  rfl

/-- The pairs fed to the loop in the concrete two-chunk call. -/
def exPairs : List (SlidingWindowFeature × SlidingWindowFeature) :=
  [(exChunk 0, exChunk 0), (exChunk (1/2), exChunk (1/2))]

/-- The result of the concrete two-chunk call: the loop emits one
output per chunk and, with two overlapping windows, keeps exactly one
chunk in each buffer afterwards. -/
def exAfterPipeline : VoiceActivityDetectionPipeline :=
  { exPipeline with
    chunkBuffer := [exChunk (1/2)]
    predBuffer := [exChunk (1/2)] }

/-- The full result pair of the concrete two-chunk call. -/
def exCallResult :
    VoiceActivityDetectionPipeline × List (Annot × SlidingWindowFeature) :=
  (exAfterPipeline,
   [([(Seg.mk 0 (1/2), "speech")], exChunk 0),
    ([(Seg.mk 0 (1/2), "speech")], exChunk 0)])

/-- The concrete two-chunk call evaluates to the expected result. -/
theorem exCall_eval :
    vadCall exPipeline [exChunk 0, exChunk (1/2)] = .ok exCallResult := by
  have hrint :
      rint (exPipeline.config.duration * exPipeline.config.sampleRate) = 4 := by
    norm_num [rint, exPipeline, exConfig]
  unfold vadCall
  rw [if_neg (by simp), if_neg (by simp [exChunk]),
    if_neg (by simp [exChunk, hrint])]
  norm_num [runChunks, vadStep, tagPred, applyShift, exPipeline, exBlocks,
    exConfig, exChunk, exCallResult, exAfterPipeline]

/-- Witness for claim C9 at the concrete pipelines and call. -/
theorem C9_witness :
    exInitPipeline.chunkBuffer.length = exInitPipeline.predBuffer.length ∧
    (vadStep exPipeline (exChunk 0) (exChunk 0)).1.chunkBuffer.length =
      (vadStep exPipeline (exChunk 0) (exChunk 0)).1.predBuffer.length ∧
    exCallResult.1.chunkBuffer.length = exCallResult.1.predBuffer.length := by
  have h := C9_buffers_equal_length exConfigMaxD exBlocks exPipeline
    exInitPipeline (exChunk 0) (exChunk 0) [exChunk 0, exChunk (1/2)]
    exCallResult
  exact ⟨h.1 exInit_eval, h.2.2.1 rfl, h.2.2.2 rfl exCall_eval⟩

/-- Counterexample to claim C1 as stated: with two overlapping windows,
after a call processing two chunks from the fresh state the buffer
holds one chunk, not two: the loop evicts as soon as the buffer length
reaches num_overlapping_windows, so the persisted length is one below
it. -/
theorem C1_counterexample :
    vadCall exPipeline [exChunk 0, exChunk (1/2)] = .ok exCallResult ∧
    exPipeline.blocks.numOverlappingWindows = 2 ∧
    exCallResult.1.chunkBuffer.length = 1 ∧
    exCallResult.1.chunkBuffer.length ≠
      exPipeline.blocks.numOverlappingWindows :=
  ⟨exCall_eval, rfl, rfl, by decide⟩

/-- Claim C1 amended: starting from empty buffers, after processing k
chunks both buffer lengths equal the minimum of k and one below
num_overlapping_windows, hence exactly num_overlapping_windows minus
one once k is at least num_overlapping_windows; the buffers are the
FIFO suffix of the most recent chunks, and at every call boundary the
length never exceeds num_overlapping_windows. -/
theorem C1_amended_buffer_invariant (p : VoiceActivityDetectionPipeline)
    (xs : List (SlidingWindowFeature × SlidingWindowFeature))
    (hN : 1 ≤ p.blocks.numOverlappingWindows)
    (hcb : p.chunkBuffer = []) (hpb : p.predBuffer = []) :
    (runChunks p xs).1.chunkBuffer.length =
      min xs.length (p.blocks.numOverlappingWindows - 1) ∧
    (runChunks p xs).1.predBuffer.length =
      min xs.length (p.blocks.numOverlappingWindows - 1) ∧
    (p.blocks.numOverlappingWindows ≤ xs.length →
      (runChunks p xs).1.chunkBuffer.length =
        p.blocks.numOverlappingWindows - 1) ∧
    (runChunks p xs).1.chunkBuffer =
      (xs.map Prod.fst).drop
        (xs.length - (p.blocks.numOverlappingWindows - 1)) ∧
    (runChunks p xs).1.predBuffer =
      (xs.map (fun x => tagPred x.1 x.2)).drop
        (xs.length - (p.blocks.numOverlappingWindows - 1)) := by
  obtain ⟨hb, hc, hp⟩ :=
    runChunks_state p.blocks.numOverlappingWindows hN xs p rfl
      (by rw [hcb]; simp) (by rw [hcb, hpb])
  rw [hcb] at hc hp
  rw [hpb] at hp
  simp only [List.nil_append, List.length_nil, Nat.zero_add] at hc hp
  refine ⟨?_, ?_, ?_, hc, hp⟩
  · rw [hc, List.length_drop, List.length_map]
    omega
  · rw [hp, List.length_drop, List.length_map]
    omega
  · intro hk
    rw [hc, List.length_drop, List.length_map]
    omega

/-- Witness for the amended claim C1: with two overlapping windows and
two processed chunks, the buffer keeps exactly one chunk. -/
theorem C1_amended_witness :
    (runChunks exPipeline exPairs).1.chunkBuffer.length = 1 :=
  (C1_amended_buffer_invariant exPipeline exPairs (by decide)
    rfl rfl).2.2.1 (by decide)

/-- Claim C8: a successful call with the segmentation block meeting its
one-score-sequence-per-chunk contract emits exactly one output pair per
incoming chunk, and every label of every returned single-label
annotated timeline is the speech label. -/
theorem C8_one_output_per_chunk_speech
    (p : VoiceActivityDetectionPipeline) (ws : List SlidingWindowFeature)
    (r : VoiceActivityDetectionPipeline ×
      List (Annot × SlidingWindowFeature))
    (hseg : (p.blocks.segmentation ws).length = ws.length)
    (hok : vadCall p ws = .ok r) :
    r.2.length = ws.length ∧
    ∀ out ∈ r.2, ∀ pr ∈ out.1, pr.2 = "speech" := by
  unfold vadCall at hok
  split_ifs at hok
  have hr : r = runChunks p (ws.zip (p.blocks.segmentation ws)) :=
    (Except.ok.inj hok).symm
  subst hr
  constructor
  · rw [runChunks_outputs_length, List.length_zip, hseg, Nat.min_self]
  · exact runChunks_outputs_speech _ p

/-- Witness for claim C8 at the concrete two-chunk call. -/
theorem C8_witness : exCallResult.2.length = 2 :=
  (C8_one_output_per_chunk_speech exPipeline [exChunk 0, exChunk (1/2)]
    exCallResult rfl exCall_eval).1

/-- Support of a two-segment sorted timeline: the two segments fuse
exactly when their gap is strictly below the collar or they overlap or
touch. -/
theorem timelineSupport_two (collar a b c d : ℚ) (hab : a ≤ b)
    (hbc : b ≤ c) (hcd : c ≤ d) :
    timelineSupport collar [Seg.mk a b, Seg.mk c d] =
      if c - b < collar ∨ c ≤ b then [Seg.mk a (max b d)]
      else [Seg.mk a b, Seg.mk c d] := by
  have hac : a ≤ c := le_trans hab hbc
  have hbd : b ≤ d := le_trans hbc hcd
  have hcond : a < c ∨ (a = c ∧ b ≤ d) := by
    rcases lt_or_eq_of_le hac with h | h
    · exact Or.inl h
    · exact Or.inr ⟨h, hbd⟩
  have hsort : sortSegs [Seg.mk a b, Seg.mk c d] =
      [Seg.mk a b, Seg.mk c d] := by
    unfold sortSegs
    simp only [List.foldr_cons, List.foldr_nil]
    simp only [insertSeg]
    rw [if_pos hcond]
  unfold timelineSupport
  simp only [hsort]
  simp only [supportGo]

/-- Separation of two proper output intervals by at least the collar:
the earlier one ends strictly before the later one starts, the gap is
at least the collar, and both intervals are proper. -/
def sepR (collar : ℚ) (x y : Seg) : Prop :=
  x.stop < y.start ∧ collar ≤ y.start - x.stop ∧
  x.start ≤ x.stop ∧ y.start ≤ y.stop

instance (collar : ℚ) : IsTrans Seg (sepR collar) where
  trans := by
    intro x y z hxy hyz
    obtain ⟨h1, h2, h3, h4⟩ := hxy
    obtain ⟨h5, h6, h7, h8⟩ := hyz
    exact ⟨by linarith, by linarith, h3, h8⟩

/-- Insertion adds exactly one element to a segment list. -/
theorem mem_insertSeg (s x : Seg) :
    ∀ l, x ∈ insertSeg s l ↔ x = s ∨ x ∈ l := by
  intro l
  induction l with
  | nil => simp [insertSeg]
  | cons t rest ih =>
    unfold insertSeg
    by_cases h : s.start < t.start ∨ (s.start = t.start ∧ s.stop ≤ t.stop)
    · rw [if_pos h]
      simp only [List.mem_cons]
    · rw [if_neg h]
      simp only [List.mem_cons, ih]
      tauto

/-- Sorting preserves the members of a segment list. -/
theorem mem_sortSegs (x : Seg) : ∀ l, x ∈ sortSegs l ↔ x ∈ l := by
  intro l
  induction l with
  | nil => simp [sortSegs]
  | cons t rest ih =>
    show x ∈ insertSeg t (sortSegs rest) ↔ _
    rw [mem_insertSeg]
    simp [ih]

/-- The head after insertion is the inserted element or the old head. -/
theorem insertSeg_head (s : Seg) :
    ∀ l, ∀ y ∈ (insertSeg s l).head?, y = s ∨ l.head? = some y := by
  intro l
  cases l with
  | nil =>
    intro y hy
    left
    have hys : s = y := by simpa [insertSeg] using hy
    exact hys.symm
  | cons t rest =>
    intro y hy
    unfold insertSeg at hy
    by_cases h : s.start < t.start ∨ (s.start = t.start ∧ s.stop ≤ t.stop)
    · rw [if_pos h] at hy
      left
      have hys : s = y := by simpa using hy
      exact hys.symm
    · rw [if_neg h] at hy
      right
      have hyt : t = y := by simpa using hy
      rw [← hyt]
      rfl

/-- Insertion preserves the start-ordered chain. -/
theorem chain_start_insertSeg (s : Seg) :
    ∀ l, List.Chain' (fun x y : Seg => x.start ≤ y.start) l →
      List.Chain' (fun x y : Seg => x.start ≤ y.start) (insertSeg s l) := by
  intro l
  induction l with
  | nil =>
    intro _
    simp [insertSeg]
  | cons t rest ih =>
    intro h
    unfold insertSeg
    by_cases hc : s.start < t.start ∨ (s.start = t.start ∧ s.stop ≤ t.stop)
    · rw [if_pos hc]
      refine List.Chain'.cons' h ?_
      intro y hy
      have hyt : t = y := by simpa using hy
      rw [← hyt]
      rcases hc with h1 | h1
      · exact le_of_lt h1
      · exact le_of_eq h1.1
    · rw [if_neg hc]
      push_neg at hc
      refine List.Chain'.cons' (ih h.tail) ?_
      intro y hy
      rcases insertSeg_head s rest y hy with h1 | h1
      · rw [h1]
        exact hc.1
      · exact h.rel_head? h1

/-- The sorted segments form a start-ordered chain. -/
theorem chain_start_sortSegs :
    ∀ l, List.Chain' (fun x y : Seg => x.start ≤ y.start) (sortSegs l) := by
  intro l
  induction l with
  | nil => simp [sortSegs]
  | cons t rest ih => exact chain_start_insertSeg t (sortSegs rest) ih

/-- The merge pass is never empty and its head starts where the current
segment starts. -/
theorem supportGo_head (collar : ℚ) :
    ∀ l cur, ∃ z rest2,
      supportGo collar cur l = z :: rest2 ∧ z.start = cur.start := by
  intro l
  induction l with
  | nil =>
    intro cur
    exact ⟨cur, [], rfl, rfl⟩
  | cons s rest ih =>
    intro cur
    unfold supportGo
    by_cases h : s.start - cur.stop < collar ∨ s.start ≤ cur.stop
    · rw [if_pos h]
      obtain ⟨z, r2, hz, hs⟩ := ih (Seg.mk cur.start (max cur.stop s.stop))
      exact ⟨z, r2, hz, hs⟩
    · rw [if_neg h]
      exact ⟨cur, supportGo collar s rest, rfl, rfl⟩

/-- The merge pass keeps all intervals proper when its inputs are. -/
theorem supportGo_proper (collar : ℚ) :
    ∀ l cur, cur.start ≤ cur.stop → (∀ z ∈ l, z.start ≤ z.stop) →
      ∀ o ∈ supportGo collar cur l, o.start ≤ o.stop := by
  intro l
  induction l with
  | nil =>
    intro cur hcur _ o ho
    have hoc : o = cur := by simpa [supportGo] using ho
    rw [hoc]
    exact hcur
  | cons s rest ih =>
    intro cur hcur hl o ho
    unfold supportGo at ho
    by_cases h : s.start - cur.stop < collar ∨ s.start ≤ cur.stop
    · rw [if_pos h] at ho
      exact ih (Seg.mk cur.start (max cur.stop s.stop))
        (le_trans hcur (le_max_left _ _))
        (fun z hz => hl z (List.mem_cons_of_mem _ hz)) o ho
    · rw [if_neg h] at ho
      rcases List.mem_cons.mp ho with h1 | h1
      · rw [h1]
        exact hcur
      · exact ih s (hl s (List.mem_cons_self _ _))
          (fun z hz => hl z (List.mem_cons_of_mem _ hz)) o h1

/-- The merge pass leaves only gaps of at least the collar between
consecutive output intervals. -/
theorem supportGo_chain (collar : ℚ) :
    ∀ l cur, cur.start ≤ cur.stop → (∀ z ∈ l, z.start ≤ z.stop) →
      List.Chain' (sepR collar) (supportGo collar cur l) := by
  intro l
  induction l with
  | nil =>
    intro cur _ _
    simp [supportGo]
  | cons s rest ih =>
    intro cur hcur hl
    unfold supportGo
    by_cases h : s.start - cur.stop < collar ∨ s.start ≤ cur.stop
    · rw [if_pos h]
      exact ih _ (le_trans hcur (le_max_left _ _))
        (fun z hz => hl z (List.mem_cons_of_mem _ hz))
    · rw [if_neg h]
      push_neg at h
      refine List.Chain'.cons'
        (ih s (hl s (List.mem_cons_self _ _))
          (fun z hz => hl z (List.mem_cons_of_mem _ hz))) ?_
      intro y hy
      obtain ⟨z, r2, hz, hs⟩ := supportGo_head collar rest s
      rw [hz] at hy
      have hzy : z = y := by simpa using hy
      have hyprop : y.start ≤ y.stop := by
        apply supportGo_proper collar rest s (hl s (List.mem_cons_self _ _))
          (fun w hw => hl w (List.mem_cons_of_mem _ hw))
        rw [hz, ← hzy]
        exact List.mem_cons_self _ _
      refine ⟨?_, ?_, hcur, hyprop⟩
      · rw [← hzy, hs]
        exact h.2
      · rw [← hzy, hs]
        exact h.1

/-- Every segment fed to the merge pass of a start-ordered list is
covered by a single output interval. -/
theorem supportGo_covers (collar : ℚ) :
    ∀ l cur,
      List.Chain' (fun x y : Seg => x.start ≤ y.start) (cur :: l) →
      ∀ z, (z = cur ∨ z ∈ l) →
      ∃ o ∈ supportGo collar cur l, o.start ≤ z.start ∧ z.stop ≤ o.stop := by
  intro l
  induction l with
  | nil =>
    intro cur _ z hz
    rcases hz with h | h
    · rw [h]
      exact ⟨cur, by simp [supportGo], le_refl _, le_refl _⟩
    · cases h
  | cons s rest ih =>
    intro cur hchain z hz
    unfold supportGo
    have hcs : cur.start ≤ s.start := hchain.rel_head
    have h2 : List.Chain' (fun x y : Seg => x.start ≤ y.start) (s :: rest) :=
      (List.chain'_cons.mp hchain).2
    by_cases h : s.start - cur.stop < collar ∨ s.start ≤ cur.stop
    · rw [if_pos h]
      have hchain2 : List.Chain' (fun x y : Seg => x.start ≤ y.start)
          (Seg.mk cur.start (max cur.stop s.stop) :: rest) := by
        refine List.Chain'.cons' h2.tail ?_
        intro y hy
        exact le_trans hcs (h2.rel_head? hy)
      rcases hz with hz | hz2
      · obtain ⟨o, ho, h1', h2'⟩ := ih (Seg.mk cur.start (max cur.stop s.stop))
          hchain2 (Seg.mk cur.start (max cur.stop s.stop)) (Or.inl rfl)
        rw [hz]
        exact ⟨o, ho, h1', le_trans (le_max_left _ _) h2'⟩
      · rcases List.mem_cons.mp hz2 with hzs | hzr
        · obtain ⟨o, ho, h1', h2'⟩ :=
            ih (Seg.mk cur.start (max cur.stop s.stop))
              hchain2 (Seg.mk cur.start (max cur.stop s.stop)) (Or.inl rfl)
          rw [hzs]
          exact ⟨o, ho, le_trans h1' hcs, le_trans (le_max_right _ _) h2'⟩
        · exact ih (Seg.mk cur.start (max cur.stop s.stop)) hchain2 z
            (Or.inr hzr)
    · rw [if_neg h]
      rcases hz with hz | hz2
      · rw [hz]
        exact ⟨cur, List.mem_cons_self _ _, le_refl _, le_refl _⟩
      · rcases List.mem_cons.mp hz2 with hzs | hzr
        · obtain ⟨o, ho, h1', h2'⟩ := ih s h2 z (Or.inl hzs)
          exact ⟨o, List.mem_cons_of_mem _ ho, h1', h2'⟩
        · obtain ⟨o, ho, h1', h2'⟩ := ih s h2 z (Or.inr hzr)
          exact ⟨o, List.mem_cons_of_mem _ ho, h1', h2'⟩

/-- Both endpoints of every merged interval come from the inputs of the
merge pass. -/
theorem supportGo_endpoints (collar : ℚ) :
    ∀ l cur, ∀ o ∈ supportGo collar cur l,
      (o.start = cur.start ∨ ∃ z ∈ l, o.start = z.start) ∧
      (o.stop = cur.stop ∨ ∃ z ∈ l, o.stop = z.stop) := by
  intro l
  induction l with
  | nil =>
    intro cur o ho
    have hoc : o = cur := by simpa [supportGo] using ho
    rw [hoc]
    exact ⟨Or.inl rfl, Or.inl rfl⟩
  | cons s rest ih =>
    intro cur o ho
    unfold supportGo at ho
    by_cases h : s.start - cur.stop < collar ∨ s.start ≤ cur.stop
    · rw [if_pos h] at ho
      obtain ⟨h1, h2⟩ := ih (Seg.mk cur.start (max cur.stop s.stop)) o ho
      constructor
      · rcases h1 with h1 | ⟨z, hz, hzz⟩
        · exact Or.inl h1
        · exact Or.inr ⟨z, List.mem_cons_of_mem _ hz, hzz⟩
      · rcases h2 with h2 | ⟨z, hz, hzz⟩
        · rcases max_cases cur.stop s.stop with ⟨hm, _⟩ | ⟨hm, _⟩
          · exact Or.inl (by rw [h2]; exact hm)
          · exact Or.inr ⟨s, List.mem_cons_self _ _, by rw [h2]; exact hm⟩
        · exact Or.inr ⟨z, List.mem_cons_of_mem _ hz, hzz⟩
    · rw [if_neg h] at ho
      rcases List.mem_cons.mp ho with h1 | h1
      · rw [h1]
        exact ⟨Or.inl rfl, Or.inl rfl⟩
      · obtain ⟨h2, h3⟩ := ih s o h1
        constructor
        · rcases h2 with h2 | ⟨z, hz, hzz⟩
          · exact Or.inr ⟨s, List.mem_cons_self _ _, h2⟩
          · exact Or.inr ⟨z, List.mem_cons_of_mem _ hz, hzz⟩
        · rcases h3 with h3 | ⟨z, hz, hzz⟩
          · exact Or.inr ⟨s, List.mem_cons_self _ _, h3⟩
          · exact Or.inr ⟨z, List.mem_cons_of_mem _ hz, hzz⟩

/-- Membership in the accumulated union of the per-chunk timelines. -/
theorem mem_foldl_append (x : Seg) :
    ∀ (preds : List (List Seg)) (acc : List Seg),
      x ∈ preds.foldl (fun a q => a ++ q) acc ↔
        x ∈ acc ∨ ∃ tl ∈ preds, x ∈ tl := by
  intro preds
  induction preds with
  | nil =>
    intro acc
    simp
  | cons t rest ih =>
    intro acc
    show x ∈ rest.foldl (fun a q => a ++ q) (acc ++ t) ↔ _
    rw [ih, List.mem_append]
    constructor
    · rintro ((h | h) | ⟨tl, htl, hx⟩)
      · exact Or.inl h
      · exact Or.inr ⟨t, List.mem_cons_self _ _, h⟩
      · exact Or.inr ⟨tl, List.mem_cons_of_mem _ htl, hx⟩
    · rintro (h | ⟨tl, htl, hx⟩)
      · exact Or.inl (Or.inl h)
      · rcases List.mem_cons.mp htl with h1 | h1
        · rw [h1] at hx
          exact Or.inl (Or.inr hx)
        · exact Or.inr ⟨tl, h1, hx⟩

/-- Every input segment is covered by one interval of the support. -/
theorem timelineSupport_covers (collar : ℚ) (l : List Seg) (s : Seg)
    (hs : s ∈ l) :
    ∃ o ∈ timelineSupport collar l, o.start ≤ s.start ∧ s.stop ≤ o.stop := by
  have hmem : s ∈ sortSegs l := (mem_sortSegs s l).mpr hs
  have hchain := chain_start_sortSegs l
  rcases hsort : sortSegs l with _ | ⟨h0, t⟩
  · rw [hsort] at hmem
    cases hmem
  · rw [hsort] at hmem hchain
    have hts : timelineSupport collar l = supportGo collar h0 t := by
      unfold timelineSupport
      rw [hsort]
    rw [hts]
    refine supportGo_covers collar t h0 hchain s ?_
    rcases List.mem_cons.mp hmem with h | h
    · exact Or.inl h
    · exact Or.inr h

/-- Consecutive support intervals are separated by at least the collar. -/
theorem timelineSupport_chain (collar : ℚ) (l : List Seg)
    (hl : ∀ z ∈ l, z.start ≤ z.stop) :
    List.Chain' (sepR collar) (timelineSupport collar l) := by
  rcases hsort : sortSegs l with _ | ⟨h0, t⟩
  · have hts : timelineSupport collar l = [] := by
      unfold timelineSupport
      rw [hsort]
    rw [hts]
    simp
  · have hts : timelineSupport collar l = supportGo collar h0 t := by
      unfold timelineSupport
      rw [hsort]
    rw [hts]
    have hall : ∀ z ∈ h0 :: t, z.start ≤ z.stop := by
      intro z hz
      exact hl z ((mem_sortSegs z l).mp (by rw [hsort]; exact hz))
    exact supportGo_chain collar t h0 (hall h0 (List.mem_cons_self _ _))
      (fun z hz => hall z (List.mem_cons_of_mem _ hz))

/-- Any two support intervals, in list order, are separated by at least
the collar. -/
theorem timelineSupport_pairwise (collar : ℚ) (l : List Seg)
    (hl : ∀ z ∈ l, z.start ≤ z.stop) :
    List.Pairwise (sepR collar) (timelineSupport collar l) :=
  List.chain'_iff_pairwise.mp (timelineSupport_chain collar l hl)

/-- Both endpoints of every support interval come from the input. -/
theorem timelineSupport_endpoints (collar : ℚ) (l : List Seg) :
    ∀ o ∈ timelineSupport collar l,
      (∃ z ∈ l, o.start = z.start) ∧ (∃ z ∈ l, o.stop = z.stop) := by
  intro o ho
  rcases hsort : sortSegs l with _ | ⟨h0, t⟩
  · have hts : timelineSupport collar l = [] := by
      unfold timelineSupport
      rw [hsort]
    rw [hts] at ho
    cases ho
  · have hts : timelineSupport collar l = supportGo collar h0 t := by
      unfold timelineSupport
      rw [hsort]
    rw [hts] at ho
    obtain ⟨h1, h2⟩ := supportGo_endpoints collar t h0 o ho
    constructor
    · rcases h1 with h1 | ⟨z, hz, hzz⟩
      · exact ⟨h0, (mem_sortSegs h0 l).mp
          (by rw [hsort]; exact List.mem_cons_self _ _), h1⟩
      · exact ⟨z, (mem_sortSegs z l).mp
          (by rw [hsort]; exact List.mem_cons_of_mem _ hz), hzz⟩
    · rcases h2 with h2 | ⟨z, hz, hzz⟩
      · exact ⟨h0, (mem_sortSegs h0 l).mp
          (by rw [hsort]; exact List.mem_cons_self _ _), h2⟩
      · exact ⟨z, (mem_sortSegs z l).mp
          (by rw [hsort]; exact List.mem_cons_of_mem _ hz), hzz⟩

/-- Two proper input segments separated by a gap strictly below the
collar end up inside one and the same support interval. -/
theorem timelineSupport_fuses (collar : ℚ) (l : List Seg)
    (hl : ∀ z ∈ l, z.start ≤ z.stop) (s1 s2 : Seg) (hs1 : s1 ∈ l)
    (hs2 : s2 ∈ l) (hgap : s1.stop ≤ s2.start)
    (hlt : s2.start - s1.stop < collar) :
    ∃ o ∈ timelineSupport collar l,
      o.start ≤ s1.start ∧ s1.stop ≤ o.stop ∧
      o.start ≤ s2.start ∧ s2.stop ≤ o.stop := by
  obtain ⟨o1, ho1, h11, h12⟩ := timelineSupport_covers collar l s1 hs1
  obtain ⟨o2, ho2, h21, h22⟩ := timelineSupport_covers collar l s2 hs2
  by_cases heq : o1 = o2
  · rw [heq] at h11 h12
    exact ⟨o2, ho2, h11, h12, h21, h22⟩
  · exfalso
    have hpw := timelineSupport_pairwise collar l hl
    rw [List.pairwise_iff_getElem] at hpw
    obtain ⟨i, hi, hio1⟩ := List.mem_iff_getElem.mp ho1
    obtain ⟨j, hj, hjo2⟩ := List.mem_iff_getElem.mp ho2
    have hij : i ≠ j := by
      intro hcon
      subst hcon
      apply heq
      rw [← hio1, ← hjo2]
    have hs1p : s1.start ≤ s1.stop := hl s1 hs1
    have hs2p : s2.start ≤ s2.stop := hl s2 hs2
    rcases Nat.lt_or_ge i j with hlt2 | hge
    · have hr := hpw i j hi hj hlt2
      rw [hio1, hjo2] at hr
      have hgap2 := hr.2.1
      linarith
    · have hlt3 : j < i := lt_of_le_of_ne hge (Ne.symm hij)
      have hr := hpw j i hj hi hlt3
      rw [hio1, hjo2] at hr
      have hord := hr.1
      linarith

/-- Claim C4: for every non-empty list of proper single-label
annotated timelines, join_predictions returns the union of all
per-chunk timelines with every gap strictly below the merge collar
fused into a single interval: every input segment is covered by one
output interval, every output endpoint comes from an input segment,
the remaining gaps between consecutive output intervals are positive
and at least the collar, and any two input segments whose gap is
strictly below the collar land in one and the same output interval; in
particular, on a two-segment timeline with a gap strictly below the
collar the result is the single fused interval, with a zero collar a
strictly positive gap is never fused, and with a collar of one tenth a
gap of one twentieth is fused. -/
theorem C4_join_predictions_collar (p : VoiceActivityDetectionPipeline)
    (preds : List (List Seg)) (a b c d : ℚ)
    (_hne : preds ≠ [])
    (hproper : ∀ tl ∈ preds, ∀ s ∈ tl, s.start ≤ s.stop)
    (hab : a ≤ b) (hbc : b ≤ c) (hcd : c ≤ d) :
    (∀ tl ∈ preds, ∀ s ∈ tl, ∃ o ∈ p.join_predictions preds,
       o.start ≤ s.start ∧ s.stop ≤ o.stop) ∧
    (∀ o ∈ p.join_predictions preds,
       (∃ tl ∈ preds, ∃ z ∈ tl, o.start = z.start) ∧
       (∃ tl ∈ preds, ∃ z ∈ tl, o.stop = z.stop)) ∧
    List.Chain' (fun x y : Seg =>
        p.config.mergeCollar ≤ y.start - x.stop ∧ x.stop < y.start)
      (p.join_predictions preds) ∧
    (∀ tl1 ∈ preds, ∀ s1 ∈ tl1, ∀ tl2 ∈ preds, ∀ s2 ∈ tl2,
       s1.stop ≤ s2.start →
       s2.start - s1.stop < p.config.mergeCollar →
       ∃ o ∈ p.join_predictions preds,
         o.start ≤ s1.start ∧ s1.stop ≤ o.stop ∧
         o.start ≤ s2.start ∧ s2.stop ≤ o.stop) ∧
    (c - b < p.config.mergeCollar →
      p.join_predictions [[Seg.mk a b, Seg.mk c d]] = [Seg.mk a d]) ∧
    (p.config.mergeCollar = 0 → 0 < c - b →
      p.join_predictions [[Seg.mk a b, Seg.mk c d]] =
        [Seg.mk a b, Seg.mk c d]) ∧
    (p.config.mergeCollar = 1/10 → c - b = 1/20 →
      p.join_predictions [[Seg.mk a b, Seg.mk c d]] = [Seg.mk a d]) := by
  have hbd : b ≤ d := le_trans hbc hcd
  have hJP : p.join_predictions preds =
      timelineSupport p.config.mergeCollar
        (preds.foldl (fun acc q => acc ++ q) []) := rfl
  have hlL : ∀ z ∈ preds.foldl (fun acc q => acc ++ q) [],
      z.start ≤ z.stop := by
    intro z hz
    rcases (mem_foldl_append z preds []).mp hz with h | ⟨tl, htl, hztl⟩
    · cases h
    · exact hproper tl htl z hztl
  refine ⟨?_, ?_, ?_, ?_, ?_, ?_, ?_⟩
  · intro tl htl s hs
    rw [hJP]
    exact timelineSupport_covers p.config.mergeCollar _ s
      ((mem_foldl_append s preds []).mpr (Or.inr ⟨tl, htl, hs⟩))
  · intro o ho
    rw [hJP] at ho
    obtain ⟨⟨z1, hz1, he1⟩, ⟨z2, hz2, he2⟩⟩ :=
      timelineSupport_endpoints p.config.mergeCollar _ o ho
    constructor
    · rcases (mem_foldl_append z1 preds []).mp hz1 with h | ⟨tl, htl, hztl⟩
      · cases h
      · exact ⟨tl, htl, z1, hztl, he1⟩
    · rcases (mem_foldl_append z2 preds []).mp hz2 with h | ⟨tl, htl, hztl⟩
      · cases h
      · exact ⟨tl, htl, z2, hztl, he2⟩
  · rw [hJP]
    exact (timelineSupport_chain p.config.mergeCollar _ hlL).imp
      (fun x y hxy => ⟨hxy.2.1, hxy.1⟩)
  · intro tl1 htl1 s1 hs1 tl2 htl2 s2 hs2 hgap hlt
    rw [hJP]
    exact timelineSupport_fuses p.config.mergeCollar _ hlL s1 s2
      ((mem_foldl_append s1 preds []).mpr (Or.inr ⟨tl1, htl1, hs1⟩))
      ((mem_foldl_append s2 preds []).mpr (Or.inr ⟨tl2, htl2, hs2⟩))
      hgap hlt
  · intro h
    have hJ : p.join_predictions [[Seg.mk a b, Seg.mk c d]] =
        timelineSupport p.config.mergeCollar [Seg.mk a b, Seg.mk c d] := rfl
    rw [hJ, timelineSupport_two _ a b c d hab hbc hcd,
      if_pos (Or.inl h), max_eq_right hbd]
  · intro h0 hgap
    have hJ : p.join_predictions [[Seg.mk a b, Seg.mk c d]] =
        timelineSupport p.config.mergeCollar [Seg.mk a b, Seg.mk c d] := rfl
    have hno : ¬ (c - b < p.config.mergeCollar ∨ c ≤ b) := by
      rw [h0]
      push_neg
      constructor
      · linarith
      · linarith
    rw [hJ, timelineSupport_two _ a b c d hab hbc hcd, if_neg hno]
  · intro h0 hgap
    have hJ : p.join_predictions [[Seg.mk a b, Seg.mk c d]] =
        timelineSupport p.config.mergeCollar [Seg.mk a b, Seg.mk c d] := rfl
    rw [hJ, timelineSupport_two _ a b c d hab hbc hcd,
      if_pos (Or.inl (by rw [hgap, h0]; norm_num)), max_eq_right hbd]

/-- A concrete pipeline whose merge collar is one tenth. -/
def exPipelineTenth : VoiceActivityDetectionPipeline :=
  { exPipeline with config := { exConfig with mergeCollar := 1/10 } }

/-- Witness for claim C4: a gap of one twentieth with a collar of one
tenth is fused into a single interval. -/
theorem C4_witness :
    exPipelineTenth.join_predictions [[Seg.mk 0 1, Seg.mk (21/20) 2]] =
      [Seg.mk 0 2] :=
  (C4_join_predictions_collar exPipelineTenth
    [[Seg.mk 0 1, Seg.mk (21/20) 2]] 0 1 (21/20) 2
    (by simp)
    (by intro tl htl s hs
        rcases List.mem_cons.mp htl with h | h
        · rw [h] at hs
          rcases List.mem_cons.mp hs with h2 | h2
          · rw [h2]; norm_num
          · rcases List.mem_cons.mp h2 with h3 | h3
            · rw [h3]; norm_num
            · cases h3
        · cases h)
    (by norm_num) (by norm_num) (by norm_num)).2.2.2.2.2.2 rfl
    (by norm_num)
